import Mathlib

/-!
Shallow embedding of `src/ping.rs` from fastping-rs.

The embedding models:
- `Ping` (per-target probe state) and `ReceivedPing` (reply records),
- the packet builders `send_echo` / `send_echov6` over pnet's
  `MutableEchoRequestPacket` / `MutableIcmpv6Packet` (byte buffers with the
  ICMP field layout and the one's-complement checksum of `pnet::util`),
- the round scheduler `send_pings`: per round a dispatch pass over the
  registry, a wait-and-match phase consuming a list of reply records, an
  idle sweep, and a stop check. The scheduler is modelled as a function of
  a finite list of per-round environments (send outcomes, arriving replies,
  delivery outcomes, stop flag); machine integers are `Nat` with explicit
  `% 2^16` where 16-bit overflow matters.
-/

/-- Address of a target: IPv4 (32-bit) or IPv6 (128-bit), mirroring
`std::net::IpAddr`. -/
inductive IpAddr where
  | v4 (a : Nat) : IpAddr
  | v6 (a : Nat) : IpAddr
deriving DecidableEq, Repr

def IpAddr.is_ipv4 : IpAddr → Bool
  | .v4 _ => true
  | .v6 _ => false

def IpAddr.is_ipv6 : IpAddr → Bool
  | .v4 _ => false
  | .v6 _ => true

/-- Per-target probe state (`struct Ping` in ping.rs). `identifier` and
`sequence_number` are u16 values, kept `< 2^16`. -/
structure Ping where
  addr : IpAddr
  identifier : Nat
  sequence_number : Nat
  seen : Bool
deriving DecidableEq, Repr

/-- A reply record handed over by the external receiver thread
(`struct ReceivedPing`). `rtt` is in nanoseconds, `ttl` a byte. -/
structure ReceivedPing where
  addr : IpAddr
  identifier : Nat
  sequence_number : Nat
  rtt : Nat
  ttl : Nat
deriving DecidableEq, Repr

/-- Outcome events delivered on the results channel (`enum PingResult`). -/
inductive PingResult where
  | Receive (addr : IpAddr) (rtt : Nat) (seq : Nat) (ttl : Nat) : PingResult
  | Idle (addr : IpAddr) : PingResult
deriving DecidableEq, Repr

/-- `Ping::new`: `identifier` is `0`, overwritten by a random u16 draw when
the address is IPv4; sequence number starts at 0, `seen` false. The random
draw is passed in as `rand` (reduced to u16 range). -/
def Ping.new (addr : IpAddr) (rand : Nat) : Ping :=
  let identifier : Nat := if addr.is_ipv4 then rand % 65536 else 0
  { addr := addr, identifier := identifier, sequence_number := 0, seen := false }

/-- `Ping::new_with_seq`: like `new` but with a caller-supplied initial
sequence number. -/
def Ping.new_with_seq (addr : IpAddr) (rand : Nat) (seq : Nat) : Ping :=
  let identifier : Nat := if addr.is_ipv4 then rand % 65536 else 0
  { addr := addr, identifier := identifier, sequence_number := seq, seen := false }

def Ping.get_addr (p : Ping) : IpAddr := p.addr

def Ping.get_identifier (p : Ping) : Nat := p.identifier

def Ping.get_sequence_number (p : Ping) : Nat := p.sequence_number

/-- `Ping::increment_sequence_number`: `self.sequence_number += 1` on a u16
(wraps modulo 2^16 under release-mode semantics), returning the new value.
The Lean version returns the updated state together with the returned
value. -/
def Ping.increment_sequence_number (p : Ping) : Ping × Nat :=
  let s := (p.sequence_number + 1) % 65536
  ({ p with sequence_number := s }, s)

/-- Result of `TransportSender::send_to`: `Ok(bytes)` or an I/O error. -/
inductive TxResult where
  | ok (bytes : Nat) : TxResult
  | err : TxResult
deriving DecidableEq, Repr

/-! ### pnet packet layer: byte buffers, field layout, checksum -/

/-- `IcmpTypes::EchoRequest` = 8. -/
def IcmpTypes.EchoRequest : Nat := 8

/-- `Icmpv6Types::EchoRequest` = 128. -/
def Icmpv6Types.EchoRequest : Nat := 128

/-- Big-endian 16-bit words of a byte buffer (pnet `util::checksum` views the
packet as u16 words; a trailing odd byte is the high byte of a final word). -/
def util.toWords : List Nat → List Nat
  | [] => []
  | [b] => [b * 256]
  | b1 :: b2 :: rest => (b1 * 256 + b2) :: util.toWords rest

/-- Sum of the 16-bit words skipping the word at index `skipword`. -/
def util.sumSkip (skipword : Nat) : Nat → List Nat → Nat
  | _, [] => 0
  | i, w :: ws => (if i = skipword then 0 else w) + util.sumSkip skipword (i + 1) ws

/-- End-around carry folding (`while sum >> 16 != 0`), with fuel; 32 steps
are far more than any sum here needs. -/
def util.foldCarry : Nat → Nat → Nat
  | 0, s => s
  | fuel + 1, s => if s < 65536 then s else util.foldCarry fuel (s % 65536 + s / 65536)

/-- pnet `util::checksum(data, skipword)`: one's-complement of the
end-around-carry sum of the 16-bit words, skipping word `skipword`. -/
def util.checksum (data : List Nat) (skipword : Nat) : Nat :=
  65535 - util.foldCarry 32 (util.sumSkip skipword 0 (util.toWords data)) % 65536

/-- pnet `MutableEchoRequestPacket`: a byte buffer with the ICMP echo-request
layout (type 0, code 1, checksum 2–3, identifier 4–5, sequence 6–7). -/
structure MutableEchoRequestPacket where
  buf : List Nat
deriving DecidableEq, Repr

/-- Minimum buffer length for the echo-request layout: 8 bytes. -/
def MutableEchoRequestPacket.minimum_packet_size : Nat := 8

/-- `MutableEchoRequestPacket::new`: `None` when the buffer is shorter than
the minimum packet size. -/
def MutableEchoRequestPacket.new (buf : List Nat) : Option MutableEchoRequestPacket :=
  if buf.length < MutableEchoRequestPacket.minimum_packet_size then none else some ⟨buf⟩

def MutableEchoRequestPacket.set_icmp_type (p : MutableEchoRequestPacket) (t : Nat) :
    MutableEchoRequestPacket :=
  ⟨p.buf.set 0 t⟩

def MutableEchoRequestPacket.set_identifier (p : MutableEchoRequestPacket) (v : Nat) :
    MutableEchoRequestPacket :=
  ⟨(p.buf.set 4 (v / 256 % 256)).set 5 (v % 256)⟩

def MutableEchoRequestPacket.set_sequence_number (p : MutableEchoRequestPacket) (v : Nat) :
    MutableEchoRequestPacket :=
  ⟨(p.buf.set 6 (v / 256 % 256)).set 7 (v % 256)⟩

def MutableEchoRequestPacket.set_checksum (p : MutableEchoRequestPacket) (v : Nat) :
    MutableEchoRequestPacket :=
  ⟨(p.buf.set 2 (v / 256 % 256)).set 3 (v % 256)⟩

/-- pnet `MutableIcmpv6Packet`: a byte buffer with the generic ICMPv6 layout
(type 0, code 1, checksum 2–3). -/
structure MutableIcmpv6Packet where
  buf : List Nat
deriving DecidableEq, Repr

/-- Minimum buffer length for the generic ICMPv6 layout: 4 bytes. -/
def MutableIcmpv6Packet.minimum_packet_size : Nat := 4

/-- `MutableIcmpv6Packet::new`: `None` when the buffer is shorter than the
minimum packet size. -/
def MutableIcmpv6Packet.new (buf : List Nat) : Option MutableIcmpv6Packet :=
  if buf.length < MutableIcmpv6Packet.minimum_packet_size then none else some ⟨buf⟩

def MutableIcmpv6Packet.set_icmpv6_type (p : MutableIcmpv6Packet) (t : Nat) :
    MutableIcmpv6Packet :=
  ⟨p.buf.set 0 t⟩

def MutableIcmpv6Packet.set_checksum (p : MutableIcmpv6Packet) (v : Nat) :
    MutableIcmpv6Packet :=
  ⟨(p.buf.set 2 (v / 256 % 256)).set 3 (v % 256)⟩

/-- `icmp_checksum` from ping.rs. -/
def icmp_checksum (p : MutableEchoRequestPacket) : Nat :=
  util.checksum p.buf 1

/-- `icmpv6_checksum` from ping.rs. -/
def icmpv6_checksum (p : MutableIcmpv6Packet) : Nat :=
  util.checksum p.buf 1

/-! ### send_echo / send_echov6 -/

/-- `send_echo`: allocate a zeroed `size`-byte buffer, build the echo-request
packet (`unwrap` on construction modelled as `none` = panic), increment the
target's sequence number, stamp sequence/identifier/type/checksum, transmit.
The transmission outcome `txres` comes from the environment. Returns the
updated `Ping`, the built packet and the send result. -/
def send_echo (size : Nat) (txres : TxResult) (ping : Ping) :
    Option (Ping × MutableEchoRequestPacket × TxResult) :=
  match MutableEchoRequestPacket.new (List.replicate size 0) with
  | none => none
  | some pkt0 =>
    let pr := ping.increment_sequence_number
    let pkt1 := pkt0.set_sequence_number pr.2
    let pkt2 := pkt1.set_identifier pr.1.get_identifier
    let pkt3 := pkt2.set_icmp_type IcmpTypes.EchoRequest
    let pkt4 := pkt3.set_checksum (icmp_checksum pkt3)
    some (pr.1, pkt4, txres)

/-- `send_echov6`: allocate a zeroed `size`-byte buffer, build a generic
ICMPv6 packet (`unwrap` modelled as `none` = panic), set the echo-request
type and the checksum, transmit to `addr`. The target's `Ping` state is not
touched: no identifier or sequence number is written. -/
def send_echov6 (size : Nat) (addr : IpAddr) (txres : TxResult) :
    Option (IpAddr × MutableIcmpv6Packet × TxResult) :=
  match MutableIcmpv6Packet.new (List.replicate size 0) with
  | none => none
  | some pkt0 =>
    let pkt1 := pkt0.set_icmpv6_type Icmpv6Types.EchoRequest
    let pkt2 := pkt1.set_checksum (icmpv6_checksum pkt1)
    some (addr, pkt2, txres)

/-! ### Round scheduler -/

/-- A registry entry: key and per-target state, one element of the
`BTreeMap<IpAddr, Ping>`. -/
abbrev Entry := IpAddr × Ping

/-- `BTreeMap::get_mut(&addr)` on the registry, modelled as first-match
lookup on the association list. -/
def lookup_target (a : IpAddr) : List Entry → Option Ping
  | [] => none
  | e :: rest => if e.1 = a then some e.2 else lookup_target a rest

/-- Write back through `get_mut`: replace the value of the first entry whose
key is `a`. -/
def update_target (a : IpAddr) (p : Ping) : List Entry → List Entry
  | [] => []
  | e :: rest => if e.1 = a then (a, p) :: rest else e :: update_target a p rest

/-- One iteration of the dispatch `for` loop: send via the family-appropriate
transport (IPv4 increments the sequence number inside `send_echo`; IPv6 does
not touch the `Ping`), log any error, then `ping.seen = false`
unconditionally. `none` models the construction `unwrap` panic. -/
def dispatchEntry (size : Nat) (txres : TxResult) (e : Entry) : Option Entry :=
  match (if e.1.is_ipv4 then (send_echo size txres e.2).map (fun r => r.1)
         else if e.1.is_ipv6 then (send_echov6 size e.1 txres).map (fun _ => e.2)
         else some e.2) with
  | none => none
  | some p => some (e.1, { p with seen := false })

/-- The dispatch pass over the whole registry, in iteration order. Each
entry's send outcome is drawn from the oracle `txres`. -/
def dispatch (size : Nat) (txres : IpAddr → TxResult) : List Entry → Option (List Entry)
  | [] => some []
  | e :: rest =>
    match dispatchEntry size (txres e.1) e with
    | none => none
    | some e' =>
      match dispatch size txres rest with
      | none => none
      | some rest' => some (e' :: rest')

/-- The `Ok(ping_result)` branch of the wait loop: look the reply's address
up in the registry; on an identifier and sequence-number match set
`seen = true` and emit one `Receive` event (built from the reply's fields);
otherwise (unknown address, or mismatch) log and drop: no event, no state
change. A failed delivery of the event only logs, so it does not appear in
the result. -/
def handle_reply (targets : List Entry) (r : ReceivedPing) :
    List Entry × List PingResult :=
  match lookup_target r.addr targets with
  | none => (targets, [])
  | some ping =>
    if ping.get_identifier = r.identifier ∧ ping.get_sequence_number = r.sequence_number then
      (update_target r.addr { ping with seen := true } targets,
       [PingResult.Receive r.addr r.rtt r.sequence_number r.ttl])
    else
      (targets, [])

/-- The wait-and-match phase: process the reply records that arrive before
the round timer expires, in arrival order, accumulating the emitted events. -/
def wait_phase (targets : List Entry) : List ReceivedPing → List Entry × List PingResult
  | [] => (targets, [])
  | r :: rest =>
    let h := handle_reply targets r
    let w := wait_phase h.1 rest
    (w.1, h.2 ++ w.2)

/-- The idle sweep: one `Idle` event per registry entry whose `seen` flag is
still false, in iteration order. -/
def idle_sweep (targets : List Entry) : List PingResult :=
  targets.filterMap (fun e => if e.2.seen = false then some (PingResult.Idle e.1) else none)

/-- The per-round environment: the transport outcome for each address, the
replies arriving during the wait phase, whether each delivery on the results
channel succeeds (failures only log, mirroring the code), and the stop flag
as read at the end-of-round stop check. -/
structure RoundIn where
  txres : IpAddr → TxResult
  replies : List ReceivedPing
  deliveryOk : Nat → Bool
  stop : Bool

/-- One round of `send_pings`: dispatch (sequence increment + `seen` clear),
wait-and-match, idle sweep, stop check. Returns the new registry, the events
emitted this round, and whether the loop terminates (`return` taken).
`none` models a construction panic during dispatch. -/
def run_round (size : Nat) (inp : RoundIn) (targets : List Entry) :
    Option (List Entry × List PingResult × Bool) :=
  match dispatch size inp.txres targets with
  | none => none
  | some ts1 =>
    let w := wait_phase ts1 inp.replies
    some (w.1, w.2 ++ idle_sweep w.1, inp.stop)

/-- The `send_pings` scheduler loop over a finite list of per-round
environments: run rounds until the stop check fires or the environments run
out. Returns the final registry, the number of completed rounds, and whether
the loop exited by the stop check. -/
def send_pings (size : Nat) : List RoundIn → List Entry → Option (List Entry × Nat × Bool)
  | [], targets => some (targets, 0, false)
  | inp :: rest, targets =>
    match run_round size inp targets with
    | none => none
    | some (ts1, _, term) =>
      if term then some (ts1, 1, true)
      else
        match send_pings size rest ts1 with
        | none => none
        | some (ts2, n, ex) => some (ts2, n + 1, ex)

/-! ### Relations used to state per-entry effects of a round -/

/-- How `n` scheduler rounds transform one registry entry: key, address and
identifier are unchanged; the sequence number advances by `n` u16 steps on an
IPv4 entry and is untouched on an IPv6 entry. -/
def stepRel (n : Nat) (e e' : Entry) : Prop :=
  e'.1 = e.1 ∧ e'.2.addr = e.2.addr ∧ e'.2.identifier = e.2.identifier ∧
    e'.2.sequence_number =
      (if e.1.is_ipv4 then (e.2.sequence_number + n) % 65536 else e.2.sequence_number)

/-- The wait-and-match phase may only toggle `seen`: key, address, identifier
and sequence number of every entry are untouched. -/
def keepRel (e e' : Entry) : Prop :=
  e'.1 = e.1 ∧ e'.2.addr = e.2.addr ∧ e'.2.identifier = e.2.identifier ∧
    e'.2.sequence_number = e.2.sequence_number

/-- Address and identifier of an entry are unchanged (frame relation). -/
def frameRel (e e' : Entry) : Prop :=
  e'.1 = e.1 ∧ e'.2.addr = e.2.addr ∧ e'.2.identifier = e.2.identifier

/-! ### Claim theorems -/

/-- C4: `Ping::new` constructs a target with sequence number 0 and `seen`
false; the identifier is 0 whenever the address is IPv6, and is exactly the
full-16-bit random draw whenever the address is IPv4. -/
theorem c4_new_initial_state (a : IpAddr) (rand : Nat) :
    (Ping.new a rand).sequence_number = 0 ∧ (Ping.new a rand).seen = false ∧
    (Ping.new a rand).addr = a ∧
    (a.is_ipv6 = true → (Ping.new a rand).identifier = 0) ∧
    (a.is_ipv4 = true → (Ping.new a rand).identifier = rand % 65536) := by
  cases a <;> simp [Ping.new, IpAddr.is_ipv4, IpAddr.is_ipv6]

/-- Witness for C4 at an IPv6 and an IPv4 address. -/
theorem c4_new_initial_state_witness :
    (Ping.new (IpAddr.v6 1) 7).identifier = 0 ∧
    (Ping.new (IpAddr.v4 2) 300).identifier = 300 % 65536 :=
  ⟨(c4_new_initial_state (IpAddr.v6 1) 7).2.2.2.1 rfl,
   (c4_new_initial_state (IpAddr.v4 2) 300).2.2.2.2 rfl⟩

/-- C5: incrementing a target whose sequence number is 65535 wraps to 0 (the
u16 counter wraps modulo 2^16); the wrapped value is both stored and
returned. -/
theorem c5_sequence_wraps (p : Ping) (h : p.sequence_number = 65535) :
    (p.increment_sequence_number).1.sequence_number = 0 ∧
    (p.increment_sequence_number).2 = 0 := by
  simp [Ping.increment_sequence_number, h]

/-- Witness for C5 at a concrete target sitting at 65535. -/
theorem c5_sequence_wraps_witness :
    ((Ping.mk (IpAddr.v4 1) 3 65535 false).increment_sequence_number).1.sequence_number = 0 ∧
    ((Ping.mk (IpAddr.v4 1) 3 65535 false).increment_sequence_number).2 = 0 :=
  c5_sequence_wraps (Ping.mk (IpAddr.v4 1) 3 65535 false) rfl

/-- C6 as stated is false at the wrap point: a target whose sequence number
is 65535 stores 0 after one call, not 65535 + 1. -/
theorem c6_counterexample :
    ¬ ((Ping.mk (IpAddr.v4 1) 3 65535 false).increment_sequence_number).1.sequence_number
       = 65535 + 1 := by
  decide

/-- C6 amended: one call stores `(s + 1) % 2^16` and returns exactly the
stored value; when `s + 1` fits in 16 bits the stored value is literally
`s + 1`, and a second call advances to `(s + 2) % 2^16`. -/
theorem c6_increment_returns_new (p : Ping) :
    (p.increment_sequence_number).1.sequence_number = (p.sequence_number + 1) % 65536 ∧
    (p.increment_sequence_number).2 = (p.increment_sequence_number).1.sequence_number ∧
    (p.sequence_number + 1 < 65536 →
      (p.increment_sequence_number).1.sequence_number = p.sequence_number + 1) ∧
    ((p.increment_sequence_number).1.increment_sequence_number).1.sequence_number
      = (p.sequence_number + 2) % 65536 := by
  refine ⟨rfl, rfl, ?_, ?_⟩
  · intro hlt
    simp [Ping.increment_sequence_number, Nat.mod_eq_of_lt hlt]
  · simp only [Ping.increment_sequence_number]
    omega

/-- Witness for C6 amended: 0 → 1 → 2. -/
theorem c6_increment_returns_new_witness :
    ((Ping.mk (IpAddr.v4 1) 3 0 false).increment_sequence_number).1.sequence_number = 0 + 1 ∧
    (((Ping.mk (IpAddr.v4 1) 3 0 false).increment_sequence_number).1.increment_sequence_number).1.sequence_number
      = (0 + 2) % 65536 :=
  ⟨(c6_increment_returns_new (Ping.mk (IpAddr.v4 1) 3 0 false)).2.2.1 (by norm_num),
   (c6_increment_returns_new (Ping.mk (IpAddr.v4 1) 3 0 false)).2.2.2⟩

/-- C9: packet construction (the `unwrap` in `send_echo` / `send_echov6`)
fails exactly when the requested buffer size is below the minimum header
length of the packet layout in use (8 bytes for the ICMP echo request,
4 bytes for the generic ICMPv6 packet); at or above the minimum it never
fails. -/
theorem c9_construction_min_size (size : Nat) (tx : TxResult) (p : Ping) (a : IpAddr) :
    (send_echo size tx p = none ↔ size < MutableEchoRequestPacket.minimum_packet_size) ∧
    (send_echov6 size a tx = none ↔ size < MutableIcmpv6Packet.minimum_packet_size) := by
  constructor
  · by_cases hs : size < MutableEchoRequestPacket.minimum_packet_size
    · simp [send_echo, MutableEchoRequestPacket.new, hs]
    · simp [send_echo, MutableEchoRequestPacket.new, hs]
  · by_cases hs : size < MutableIcmpv6Packet.minimum_packet_size
    · simp [send_echov6, MutableIcmpv6Packet.new, hs]
    · simp [send_echov6, MutableIcmpv6Packet.new, hs]

/-- C2: processing one reply record. A match on address, identifier and
sequence number yields the registry with the matched target's `seen` set to
true and exactly one `Receive` event built from the reply's address, rtt,
sequence number and ttl. An unknown address, or a mismatch on either field,
yields the unchanged registry and no event. -/
theorem c2_reply_matching (ts : List Entry) (r : ReceivedPing) :
    (∀ p, lookup_target r.addr ts = some p →
       p.identifier = r.identifier → p.sequence_number = r.sequence_number →
       handle_reply ts r =
         (update_target r.addr { p with seen := true } ts,
          [PingResult.Receive r.addr r.rtt r.sequence_number r.ttl])) ∧
    (lookup_target r.addr ts = none → handle_reply ts r = (ts, [])) ∧
    (∀ p, lookup_target r.addr ts = some p →
       (p.identifier ≠ r.identifier ∨ p.sequence_number ≠ r.sequence_number) →
       handle_reply ts r = (ts, [])) := by
  refine ⟨?_, ?_, ?_⟩
  · intro p hl h1 h2
    simp [handle_reply, hl, Ping.get_identifier, Ping.get_sequence_number, h1, h2]
  · intro hl
    simp [handle_reply, hl]
  · intro p hl hm
    rcases hm with hm | hm <;>
      simp [handle_reply, hl, Ping.get_identifier, Ping.get_sequence_number, hm]

/-- Witness for C2: the spec's scenario — target 10.0.0.1 with identifier
1234 at sequence 1, a matching reply with rtt 12 and ttl 64. -/
theorem c2_reply_matching_witness :
    handle_reply [(IpAddr.v4 167772161, Ping.mk (IpAddr.v4 167772161) 1234 1 false)]
        (ReceivedPing.mk (IpAddr.v4 167772161) 1234 1 12 64) =
      (update_target (IpAddr.v4 167772161)
         { Ping.mk (IpAddr.v4 167772161) 1234 1 false with seen := true }
         [(IpAddr.v4 167772161, Ping.mk (IpAddr.v4 167772161) 1234 1 false)],
       [PingResult.Receive (IpAddr.v4 167772161) 12 1 64]) :=
  (c2_reply_matching _ _).1 _ rfl rfl rfl

/-- Keys of the registry are untouched by a write-back through `get_mut`. -/
theorem update_target_keys (a : IpAddr) (p : Ping) :
    ∀ ts : List Entry, (update_target a p ts).map Prod.fst = ts.map Prod.fst := by
  intro ts
  induction ts with
  | nil => rfl
  | cons e rest ih =>
    by_cases he : e.1 = a
    · simp [update_target, he]
    · simp [update_target, he, ih]

/-- Keys of the registry are untouched by processing one reply. -/
theorem handle_reply_keys (ts : List Entry) (r : ReceivedPing) :
    ((handle_reply ts r).1).map Prod.fst = ts.map Prod.fst := by
  unfold handle_reply
  cases hl : lookup_target r.addr ts with
  | none => rfl
  | some p =>
    by_cases hm : (p.get_identifier = r.identifier ∧ p.get_sequence_number = r.sequence_number)
    · simp [hm, update_target_keys]
    · simp [hm]

/-- Keys of the registry are untouched by the whole wait-and-match phase. -/
theorem wait_phase_keys (rs : List ReceivedPing) :
    ∀ ts : List Entry, ((wait_phase ts rs).1).map Prod.fst = ts.map Prod.fst := by
  induction rs with
  | nil => intro ts; rfl
  | cons r rest ih =>
    intro ts
    simp only [wait_phase]
    rw [ih, handle_reply_keys]

/-- No `Idle` event for an address that is not a key of the registry. -/
theorem idle_sweep_count_zero (a : IpAddr) :
    ∀ ts : List Entry, a ∉ ts.map Prod.fst →
      List.count (PingResult.Idle a) (idle_sweep ts) = 0 := by
  intro ts
  induction ts with
  | nil => intro _; rfl
  | cons e rest ih =>
    intro hmem
    simp only [List.map_cons, List.mem_cons, not_or] at hmem
    obtain ⟨hne, hrest⟩ := hmem
    by_cases hseen : e.2.seen = false
    · simp only [idle_sweep, List.filterMap_cons, hseen, if_pos]
      rw [List.count_cons]
      simp only [idle_sweep] at ih
      rw [ih hrest]
      simp [Ne.symm hne]
    · simp only [idle_sweep, List.filterMap_cons, hseen, if_neg]
      simp only [idle_sweep] at ih
      simp [hseen, ih hrest]

/-- Unfolding of the idle sweep on a cons cell. -/
theorem idle_sweep_cons (e : Entry) (rest : List Entry) :
    idle_sweep (e :: rest) =
      (if e.2.seen = false then [PingResult.Idle e.1] else []) ++ idle_sweep rest := by
  cases hseen : e.2.seen <;> simp [idle_sweep, List.filterMap_cons, hseen]

/-- With distinct keys, the idle sweep emits exactly one `Idle` event for a
registry entry whose `seen` flag is false and none for one whose flag is
true. -/
theorem idle_sweep_count (a : IpAddr) (p : Ping) :
    ∀ ts : List Entry, (ts.map Prod.fst).Nodup → lookup_target a ts = some p →
      List.count (PingResult.Idle a) (idle_sweep ts) = if p.seen then 0 else 1 := by
  intro ts
  induction ts with
  | nil => intro _ h; cases h
  | cons e rest ih =>
    intro hnd hl
    simp only [List.map_cons, List.nodup_cons] at hnd
    obtain ⟨hne, hndr⟩ := hnd
    rw [idle_sweep_cons, List.count_append]
    by_cases he : e.1 = a
    · rw [lookup_target, if_pos he] at hl
      injection hl with hl
      subst hl
      rw [idle_sweep_count_zero a rest (by rwa [he] at hne)]
      cases hseen : e.2.seen <;> simp [hseen, he]
    · rw [lookup_target, if_neg he] at hl
      rw [ih hndr hl]
      cases hseen : e.2.seen <;> simp [hseen, List.count_cons, he]

/-- C3: at the end of a round, on the post-wait registry, the idle sweep
emits exactly one `Idle` event for a target whose `seen` flag is still false
and none for a target whose `seen` flag was set during the wait phase
(registry keys are distinct, as in the `BTreeMap`). -/
theorem c3_idle_sweep_events (ts : List Entry) (replies : List ReceivedPing)
    (hnd : (ts.map Prod.fst).Nodup) (a : IpAddr) (p : Ping)
    (h : lookup_target a (wait_phase ts replies).1 = some p) :
    List.count (PingResult.Idle a) (idle_sweep (wait_phase ts replies).1)
      = if p.seen then 0 else 1 := by
  have hk : (((wait_phase ts replies).1).map Prod.fst).Nodup := by
    rw [wait_phase_keys]; exact hnd
  exact idle_sweep_count a p _ hk h

/-- Witness for C3: one unseen target and one target marked seen by a
matching reply during the wait phase. -/
theorem c3_idle_sweep_events_witness :
    List.count (PingResult.Idle (IpAddr.v4 1))
        (idle_sweep (wait_phase
          [(IpAddr.v4 1, Ping.mk (IpAddr.v4 1) 3 1 false),
           (IpAddr.v4 2, Ping.mk (IpAddr.v4 2) 4 1 false)]
          [ReceivedPing.mk (IpAddr.v4 2) 4 1 12 64]).1)
      = if (Ping.mk (IpAddr.v4 1) 3 1 false).seen then 0 else 1 :=
  c3_idle_sweep_events _ _ (by decide) _ _ rfl

/-- Evaluation of one dispatch iteration on an IPv4 entry with a large
enough buffer: the sequence number advances one u16 step and `seen` is
cleared; the send outcome is irrelevant. -/
theorem dispatchEntry_v4 (size : Nat) (tx : TxResult) (x : Nat) (p : Ping)
    (hs : ¬ size < 8) :
    dispatchEntry size tx (IpAddr.v4 x, p) =
      some (IpAddr.v4 x,
        { p with sequence_number := (p.sequence_number + 1) % 65536, seen := false }) := by
  simp [dispatchEntry, send_echo, MutableEchoRequestPacket.new,
    MutableEchoRequestPacket.minimum_packet_size, IpAddr.is_ipv4, hs,
    Ping.increment_sequence_number]

/-- Evaluation of one dispatch iteration on an IPv6 entry with a large
enough buffer: only `seen` is cleared; the send outcome is irrelevant. -/
theorem dispatchEntry_v6 (size : Nat) (tx : TxResult) (x : Nat) (p : Ping)
    (hs : ¬ size < 4) :
    dispatchEntry size tx (IpAddr.v6 x, p) = some (IpAddr.v6 x, { p with seen := false }) := by
  simp [dispatchEntry, send_echov6, MutableIcmpv6Packet.new,
    MutableIcmpv6Packet.minimum_packet_size, IpAddr.is_ipv4, IpAddr.is_ipv6, hs]

/-- An undersized buffer makes the IPv4 dispatch iteration panic. -/
theorem dispatchEntry_v4_none (size : Nat) (tx : TxResult) (x : Nat) (p : Ping)
    (hs : size < 8) :
    dispatchEntry size tx (IpAddr.v4 x, p) = none := by
  simp [dispatchEntry, send_echo, MutableEchoRequestPacket.new,
    MutableEchoRequestPacket.minimum_packet_size, IpAddr.is_ipv4, hs]

/-- An undersized buffer makes the IPv6 dispatch iteration panic. -/
theorem dispatchEntry_v6_none (size : Nat) (tx : TxResult) (x : Nat) (p : Ping)
    (hs : size < 4) :
    dispatchEntry size tx (IpAddr.v6 x, p) = none := by
  simp [dispatchEntry, send_echov6, MutableIcmpv6Packet.new,
    MutableIcmpv6Packet.minimum_packet_size, IpAddr.is_ipv4, IpAddr.is_ipv6, hs]

/-- The result of one dispatch iteration does not depend on the transport's
send outcome (errors are only logged). -/
theorem dispatchEntry_txres (size : Nat) (tx tx2 : TxResult) (e : Entry) :
    dispatchEntry size tx e = dispatchEntry size tx2 e := by
  obtain ⟨a, p⟩ := e
  cases a with
  | v4 x =>
    by_cases hs : size < 8
    · rw [dispatchEntry_v4_none size tx x p hs, dispatchEntry_v4_none size tx2 x p hs]
    · rw [dispatchEntry_v4 size tx x p hs, dispatchEntry_v4 size tx2 x p hs]
  | v6 x =>
    by_cases hs : size < 4
    · rw [dispatchEntry_v6_none size tx x p hs, dispatchEntry_v6_none size tx2 x p hs]
    · rw [dispatchEntry_v6 size tx x p hs, dispatchEntry_v6 size tx2 x p hs]

/-- One successful dispatch iteration: key, address and identifier are
unchanged, the sequence number advances by one u16 step exactly on IPv4
entries, and `seen` is cleared unconditionally. -/
theorem dispatchEntry_fields (size : Nat) (tx : TxResult) (e e' : Entry)
    (h : dispatchEntry size tx e = some e') :
    e'.1 = e.1 ∧ e'.2.addr = e.2.addr ∧ e'.2.identifier = e.2.identifier ∧
    e'.2.sequence_number =
      (if e.1.is_ipv4 then (e.2.sequence_number + 1) % 65536 else e.2.sequence_number) ∧
    e'.2.seen = false := by
  obtain ⟨a, p⟩ := e
  cases a with
  | v4 x =>
    by_cases hs : size < 8
    · rw [dispatchEntry_v4_none size tx x p hs] at h
      cases h
    · rw [dispatchEntry_v4 size tx x p hs] at h
      injection h with h
      subst h
      simp [IpAddr.is_ipv4]
  | v6 x =>
    by_cases hs : size < 4
    · rw [dispatchEntry_v6_none size tx x p hs] at h
      cases h
    · rw [dispatchEntry_v6 size tx x p hs] at h
      injection h with h
      subst h
      simp [IpAddr.is_ipv4]

/-- The whole dispatch pass does not depend on the send outcomes. -/
theorem dispatch_txres_irrel (size : Nat) (f g : IpAddr → TxResult) :
    ∀ ts : List Entry, dispatch size f ts = dispatch size g ts := by
  intro ts
  induction ts with
  | nil => rfl
  | cons e rest ih =>
    simp only [dispatch]
    rw [dispatchEntry_txres size (f e.1) (g e.1) e, ih]

/-- The dispatch pass relates input and output registries entry by entry. -/
theorem dispatch_forall₂ (size : Nat) (txres : IpAddr → TxResult) :
    ∀ ts ts' : List Entry, dispatch size txres ts = some ts' →
      List.Forall₂ (fun e e' : Entry =>
        e'.1 = e.1 ∧ e'.2.addr = e.2.addr ∧ e'.2.identifier = e.2.identifier ∧
        e'.2.sequence_number =
          (if e.1.is_ipv4 then (e.2.sequence_number + 1) % 65536 else e.2.sequence_number) ∧
        e'.2.seen = false) ts ts' := by
  intro ts
  induction ts with
  | nil =>
    intro ts' h
    simp only [dispatch, Option.some.injEq] at h
    subst h
    exact List.Forall₂.nil
  | cons e rest ih =>
    intro ts' h
    rw [dispatch] at h
    cases he : dispatchEntry size (txres e.1) e with
    | none => rw [he] at h; cases h
    | some e1 =>
      rw [he] at h
      cases hr : dispatch size txres rest with
      | none => rw [hr] at h; cases h
      | some rest1 =>
        rw [hr] at h
        simp only [Option.some.injEq] at h
        subst h
        exact List.Forall₂.cons (dispatchEntry_fields size (txres e.1) e e1 he) (ih rest1 hr)

/-- Entries on the right of the dispatch relation all have `seen = false`. -/
theorem forall₂_seen_false {ts ts' : List Entry}
    (hf : List.Forall₂ (fun e e' : Entry =>
        e'.1 = e.1 ∧ e'.2.addr = e.2.addr ∧ e'.2.identifier = e.2.identifier ∧
        e'.2.sequence_number =
          (if e.1.is_ipv4 then (e.2.sequence_number + 1) % 65536 else e.2.sequence_number) ∧
        e'.2.seen = false) ts ts') :
    ∀ e' ∈ ts', e'.2.seen = false := by
  induction hf with
  | nil => intro e' h; cases h
  | cons hrel htail ih =>
    intro e' h
    rcases List.mem_cons.mp h with h | h
    · subst h
      exact hrel.2.2.2.2
    · exact ih e' h

/-- C7: after the dispatch pass every registry entry has `seen = false`, and
the dispatch result is the same for any assignment of send outcomes
(transport errors are logged and otherwise ignored). -/
theorem c7_dispatch_clears_seen (size : Nat) (txres txres2 : IpAddr → TxResult)
    (ts ts' : List Entry) (h : dispatch size txres ts = some ts') :
    (∀ e ∈ ts', e.2.seen = false) ∧ dispatch size txres2 ts = some ts' := by
  refine ⟨?_, by rw [dispatch_txres_irrel size txres2 txres]; exact h⟩
  exact forall₂_seen_false (dispatch_forall₂ size txres ts ts' h)

/-- Witness for C7: a two-target registry (one IPv4, one IPv6), both with
`seen = true` before dispatch and `seen = false` after, under an erroring
transport for the hypothesis and a succeeding one in the conclusion. -/
theorem c7_dispatch_clears_seen_witness :
    (∀ e ∈ [(IpAddr.v4 1, Ping.mk (IpAddr.v4 1) 3 1 false),
            (IpAddr.v6 2, Ping.mk (IpAddr.v6 2) 0 0 false)], e.2.seen = false) ∧
    dispatch 8 (fun _ => TxResult.ok 0)
        [(IpAddr.v4 1, Ping.mk (IpAddr.v4 1) 3 0 true),
         (IpAddr.v6 2, Ping.mk (IpAddr.v6 2) 0 0 true)] =
      some [(IpAddr.v4 1, Ping.mk (IpAddr.v4 1) 3 1 false),
            (IpAddr.v6 2, Ping.mk (IpAddr.v6 2) 0 0 false)] :=
  c7_dispatch_clears_seen 8 (fun _ => TxResult.err) (fun _ => TxResult.ok 0) _ _ (by decide)

/-- `keepRel` composes transitively. -/
theorem keepRel_comp (a b c : Entry) (h1 : keepRel a b) (h2 : keepRel b c) : keepRel a c := by
  obtain ⟨k1, a1, i1, s1⟩ := h1
  obtain ⟨k2, a2, i2, s2⟩ := h2
  exact ⟨k2.trans k1, a2.trans a1, i2.trans i1, s2.trans s1⟩

/-- Entrywise composition of two `Forall₂` relations. -/
theorem forall₂_comp {α β γ : Type} {R : α → β → Prop} {S : β → γ → Prop} {T : α → γ → Prop}
    (hc : ∀ a b c, R a b → S b c → T a c) :
    ∀ {l1 : List α} {l2 : List β} {l3 : List γ},
      List.Forall₂ R l1 l2 → List.Forall₂ S l2 l3 → List.Forall₂ T l1 l3 := by
  intro l1 l2 l3 h1
  induction h1 generalizing l3 with
  | nil =>
    intro h2
    cases h2
    exact List.Forall₂.nil
  | cons hr ht ih =>
    intro h2
    cases h2 with
    | cons hs hts => exact List.Forall₂.cons (hc _ _ _ hr hs) (ih hts)

/-- Writing back a ping that differs only in `seen` leaves key, address,
identifier and sequence number of every entry unchanged. -/
theorem update_target_keep (a : IpAddr) (b : Bool) :
    ∀ (ts : List Entry) (p : Ping), lookup_target a ts = some p →
      List.Forall₂ keepRel ts (update_target a { p with seen := b } ts) := by
  intro ts
  induction ts with
  | nil => intro p h; cases h
  | cons e rest ih =>
    intro p h
    by_cases he : e.1 = a
    · rw [lookup_target, if_pos he] at h
      injection h with h
      subst h
      rw [update_target, if_pos he]
      exact List.Forall₂.cons ⟨he.symm, rfl, rfl, rfl⟩
        (List.forall₂_same.mpr (fun x _ => ⟨rfl, rfl, rfl, rfl⟩))
    · rw [lookup_target, if_neg he] at h
      rw [update_target, if_neg he]
      exact List.Forall₂.cons ⟨rfl, rfl, rfl, rfl⟩ (ih p h)

/-- Processing one reply only ever toggles `seen`. -/
theorem handle_reply_keep (ts : List Entry) (r : ReceivedPing) :
    List.Forall₂ keepRel ts (handle_reply ts r).1 := by
  cases hl : lookup_target r.addr ts with
  | none =>
    have h : (handle_reply ts r).1 = ts := by simp [handle_reply, hl]
    rw [h]
    exact List.forall₂_same.mpr (fun x _ => ⟨rfl, rfl, rfl, rfl⟩)
  | some p =>
    by_cases hm : (p.get_identifier = r.identifier ∧ p.get_sequence_number = r.sequence_number)
    · have h : (handle_reply ts r).1 = update_target r.addr { p with seen := true } ts := by
        simp [handle_reply, hl, hm]
      rw [h]
      exact update_target_keep r.addr true ts p hl
    · have h : (handle_reply ts r).1 = ts := by simp [handle_reply, hl, hm]
      rw [h]
      exact List.forall₂_same.mpr (fun x _ => ⟨rfl, rfl, rfl, rfl⟩)

/-- The whole wait-and-match phase only ever toggles `seen` flags. -/
theorem wait_phase_keep (rs : List ReceivedPing) :
    ∀ ts : List Entry, List.Forall₂ keepRel ts (wait_phase ts rs).1 := by
  induction rs with
  | nil => intro ts; exact List.forall₂_same.mpr (fun x _ => ⟨rfl, rfl, rfl, rfl⟩)
  | cons r rest ih =>
    intro ts
    simp only [wait_phase]
    exact forall₂_comp keepRel_comp (handle_reply_keep ts r) (ih (handle_reply ts r).1)

/-- One full round relates input and output registries by `stepRel 1`. -/
theorem run_round_forall₂ (size : Nat) (inp : RoundIn) (ts ts' : List Entry)
    (evs : List PingResult) (term : Bool)
    (h : run_round size inp ts = some (ts', evs, term)) :
    List.Forall₂ (stepRel 1) ts ts' := by
  unfold run_round at h
  cases hd : dispatch size inp.txres ts with
  | none => rw [hd] at h; cases h
  | some ts1 =>
    rw [hd] at h
    simp only [Option.some.injEq, Prod.mk.injEq] at h
    obtain ⟨h1, -, -⟩ := h
    subst h1
    refine forall₂_comp ?_ (dispatch_forall₂ size inp.txres ts ts1 hd)
      (wait_phase_keep inp.replies ts1)
    intro a b c hab hbc
    obtain ⟨k1, a1, i1, s1, -⟩ := hab
    obtain ⟨k2, a2, i2, s2⟩ := hbc
    exact ⟨k2.trans k1, a2.trans a1, i2.trans i1, by rw [s2, s1]⟩

/-- `stepRel` composes: one round then `m` rounds is `m + 1` rounds. -/
theorem stepRel_comp (m : Nat) (a b c : Entry) (h1 : stepRel 1 a b) (h2 : stepRel m b c) :
    stepRel (m + 1) a c := by
  obtain ⟨k1, a1, i1, s1⟩ := h1
  obtain ⟨k2, a2, i2, s2⟩ := h2
  refine ⟨k2.trans k1, a2.trans a1, i2.trans i1, ?_⟩
  rw [s2, k1, s1]
  by_cases hv : a.1.is_ipv4 = true
  · rw [if_pos hv, if_pos hv, if_pos hv, Nat.mod_add_mod]
    omega
  · rw [if_neg hv, if_neg hv, if_neg hv]

/-- `stepRel 0` is reflexive on entries with an in-range sequence number. -/
theorem stepRel_zero (e : Entry) (hlt : e.2.sequence_number < 65536) : stepRel 0 e e := by
  refine ⟨rfl, rfl, rfl, ?_⟩
  by_cases hv : e.1.is_ipv4 = true
  · rw [if_pos hv, Nat.add_zero, Nat.mod_eq_of_lt hlt]
  · rw [if_neg hv]

/-- `stepRel` preserves the u16 range of sequence numbers. -/
theorem stepRel_seq_lt {n : Nat} {a b : Entry} (h : stepRel n a b)
    (ha : a.2.sequence_number < 65536) : b.2.sequence_number < 65536 := by
  obtain ⟨-, -, -, hs⟩ := h
  rw [hs]
  by_cases hv : a.1.is_ipv4 = true
  · rw [if_pos hv]; exact Nat.mod_lt _ (by norm_num)
  · rw [if_neg hv]; exact ha

/-- The u16 range invariant transports along `Forall₂ (stepRel n)`. -/
theorem forall₂_seq_lt {n : Nat} {ts ts' : List Entry}
    (hf : List.Forall₂ (stepRel n) ts ts')
    (h : ∀ e ∈ ts, e.2.sequence_number < 65536) :
    ∀ e' ∈ ts', e'.2.sequence_number < 65536 := by
  induction hf with
  | nil => intro e' h'; cases h'
  | cons hrel htail ih =>
    intro e' h'
    rcases List.mem_cons.mp h' with h' | h'
    · subst h'
      exact stepRel_seq_lt hrel (h _ (List.mem_cons_self _ _))
    · exact ih (fun e he => h e (List.mem_cons_of_mem _ he)) e' h'

/-- C1 as stated is false for IPv6 targets: after one completed round an
IPv6 target's sequence number is still 0, not 1, because `send_echov6` never
touches the target's state. -/
theorem c1_counterexample :
    (send_pings 8 [RoundIn.mk (fun _ => TxResult.ok 0) [] (fun _ => true) true]
        [(IpAddr.v6 1, Ping.new (IpAddr.v6 1) 7)]).map
        (fun r => (r.1.map (fun e => e.2.sequence_number), r.2.1))
      = some ([0], 1) ∧
    (send_pings 8 [RoundIn.mk (fun _ => TxResult.ok 0) [] (fun _ => true) true]
        [(IpAddr.v6 1, Ping.new (IpAddr.v6 1) 7)]).map
        (fun r => (r.1.map (fun e => e.2.sequence_number), r.2.1))
      ≠ some ([1], 1) := by
  constructor
  · rfl
  · decide

/-- C1 amended: after `n` completed rounds of the scheduler every IPv4
entry's sequence number has advanced by exactly `n` modulo 2^16 (so a target
constructed at 0 reads `n % 2^16`, which is `n` while `n < 2^16`), while an
IPv6 entry's sequence number is never incremented; keys, addresses and
identifiers are unchanged. -/
theorem c1_sequence_after_rounds (size : Nat) :
    ∀ (ins : List RoundIn) (ts ts' : List Entry) (n : Nat) (ex : Bool),
      (∀ e ∈ ts, e.2.sequence_number < 65536) →
      send_pings size ins ts = some (ts', n, ex) →
      List.Forall₂ (stepRel n) ts ts' := by
  intro ins
  induction ins with
  | nil =>
    intro ts ts' n ex hb h
    simp only [send_pings, Option.some.injEq, Prod.mk.injEq] at h
    obtain ⟨h1, h2, -⟩ := h
    subst h1
    subst h2
    exact List.forall₂_same.mpr (fun e he => stepRel_zero e (hb e he))
  | cons inp rest ih =>
    intro ts ts' n ex hb h
    rw [send_pings] at h
    cases hr : run_round size inp ts with
    | none => rw [hr] at h; cases h
    | some out =>
      obtain ⟨ts1, evs, term⟩ := out
      rw [hr] at h
      have hstep := run_round_forall₂ size inp ts ts1 evs term hr
      cases term with
      | true =>
        simp only [if_pos] at h
        simp only [Option.some.injEq, Prod.mk.injEq] at h
        obtain ⟨h1, h2, -⟩ := h
        subst h1
        subst h2
        exact hstep
      | false =>
        simp only [Bool.false_eq_true, if_false] at h
        cases hs2 : send_pings size rest ts1 with
        | none => rw [hs2] at h; cases h
        | some out2 =>
          obtain ⟨ts2, m, ex2⟩ := out2
          rw [hs2] at h
          simp only [Option.some.injEq, Prod.mk.injEq] at h
          obtain ⟨h1, h2, -⟩ := h
          subst h1
          subst h2
          exact forall₂_comp (stepRel_comp m) hstep
            (ih ts1 ts2 m ex2 (forall₂_seq_lt hstep hb) hs2)

/-- Witness for C1 amended: one IPv4 target, one completed round, sequence
number 0 → 1. -/
theorem c1_sequence_after_rounds_witness :
    List.Forall₂ (stepRel 1)
      [(IpAddr.v4 1, Ping.new (IpAddr.v4 1) 3)]
      [(IpAddr.v4 1, Ping.mk (IpAddr.v4 1) 3 1 false)] :=
  c1_sequence_after_rounds 8
    [RoundIn.mk (fun _ => TxResult.ok 0) [] (fun _ => true) true]
    [(IpAddr.v4 1, Ping.new (IpAddr.v4 1) 3)]
    [(IpAddr.v4 1, Ping.mk (IpAddr.v4 1) 3 1 false)] 1 true
    (by intro e he; rw [List.mem_singleton] at he; subst he; decide)
    (by decide)

/-- The termination flag a round reports is exactly the stop flag read at
the end-of-round stop check. -/
theorem run_round_term (size : Nat) (inp : RoundIn) (ts ts' : List Entry)
    (evs : List PingResult) (term : Bool)
    (h : run_round size inp ts = some (ts', evs, term)) : term = inp.stop := by
  unfold run_round at h
  cases hd : dispatch size inp.txres ts with
  | none => rw [hd] at h; cases h
  | some ts1 =>
    rw [hd] at h
    simp only [Option.some.injEq, Prod.mk.injEq] at h
    exact h.2.2.symm

/-- C8: a round terminates the scheduler exactly when the stop flag is true
at its stop check, and its entire outcome is unchanged under any other
assignment of send outcomes and delivery outcomes (per-target faults never
cause an exit); over a whole run, the loop exits by the stop check exactly
when some executed round's stop flag is true. -/
theorem c8_stop_terminates (size : Nat) :
    (∀ (inp : RoundIn) (ts ts' : List Entry) (evs : List PingResult) (term : Bool),
       run_round size inp ts = some (ts', evs, term) →
       (term = true ↔ inp.stop = true) ∧
       ∀ (tx2 : IpAddr → TxResult) (d2 : Nat → Bool),
         run_round size (RoundIn.mk tx2 inp.replies d2 inp.stop) ts = some (ts', evs, term)) ∧
    (∀ (ins : List RoundIn) (ts ts' : List Entry) (n : Nat) (ex : Bool),
       send_pings size ins ts = some (ts', n, ex) →
       (ex = true ↔ ∃ inp ∈ ins, inp.stop = true)) := by
  constructor
  · intro inp ts ts' evs term h
    constructor
    · rw [run_round_term size inp ts ts' evs term h]
    · intro tx2 d2
      obtain ⟨tx0, rps, d0, st⟩ := inp
      have heq : run_round size (RoundIn.mk tx2 rps d2 st) ts
          = run_round size (RoundIn.mk tx0 rps d0 st) ts := by
        unfold run_round
        dsimp only
        rw [dispatch_txres_irrel size tx2 tx0]
      rw [heq]
      exact h
  · intro ins
    induction ins with
    | nil =>
      intro ts ts' n ex h
      simp only [send_pings, Option.some.injEq, Prod.mk.injEq] at h
      obtain ⟨-, -, hex⟩ := h
      subst hex
      simp
    | cons inp rest ih =>
      intro ts ts' n ex h
      rw [send_pings] at h
      cases hr : run_round size inp ts with
      | none => rw [hr] at h; cases h
      | some out =>
        obtain ⟨ts1, evs, term⟩ := out
        rw [hr] at h
        have hterm := run_round_term size inp ts ts1 evs term hr
        cases term with
        | true =>
          simp only [if_pos] at h
          simp only [Option.some.injEq, Prod.mk.injEq] at h
          obtain ⟨-, -, hex⟩ := h
          subst hex
          constructor
          · intro _
            exact ⟨inp, List.mem_cons_self _ _, hterm.symm⟩
          · intro _
            rfl
        | false =>
          simp only [Bool.false_eq_true, if_false] at h
          cases hs2 : send_pings size rest ts1 with
          | none => rw [hs2] at h; cases h
          | some out2 =>
            obtain ⟨ts2, m, ex2⟩ := out2
            rw [hs2] at h
            simp only [Option.some.injEq, Prod.mk.injEq] at h
            obtain ⟨-, -, hex⟩ := h
            subst hex
            rw [ih ts1 ts2 m ex2 hs2]
            constructor
            · rintro ⟨x, hx, hxs⟩
              exact ⟨x, List.mem_cons_of_mem _ hx, hxs⟩
            · rintro ⟨x, hx, hxs⟩
              rcases List.mem_cons.mp hx with rfl | hx
              · rw [← hterm] at hxs
                exact absurd hxs (by decide)
              · exact ⟨x, hx, hxs⟩

/-- Witness for C8: a single round whose stop flag is raised exits the loop. -/
theorem c8_stop_terminates_witness :
    true = true ↔
      ∃ inp ∈ [RoundIn.mk (fun _ => TxResult.ok 0) [] (fun _ => true) true], inp.stop = true :=
  (c8_stop_terminates 8).2 [RoundIn.mk (fun _ => TxResult.ok 0) [] (fun _ => true) true]
    [(IpAddr.v4 1, Ping.new (IpAddr.v4 1) 3)]
    [(IpAddr.v4 1, Ping.mk (IpAddr.v4 1) 3 1 false)] 1 true (by decide)

/-- C10: address and identifier are frame-preserved: by a sequence-number
increment, by the dispatch pass, by reply matching, and by a whole round
(dispatch, wait-and-match, idle sweep); registry keys are preserved too. -/
theorem c10_addr_identifier_frame :
    (∀ p : Ping,
       (p.increment_sequence_number).1.addr = p.addr ∧
       (p.increment_sequence_number).1.identifier = p.identifier) ∧
    (∀ (size : Nat) (txres : IpAddr → TxResult) (ts ts' : List Entry),
       dispatch size txres ts = some ts' → List.Forall₂ frameRel ts ts') ∧
    (∀ (ts : List Entry) (r : ReceivedPing),
       List.Forall₂ frameRel ts (handle_reply ts r).1) ∧
    (∀ (size : Nat) (inp : RoundIn) (ts ts' : List Entry) (evs : List PingResult) (term : Bool),
       run_round size inp ts = some (ts', evs, term) → List.Forall₂ frameRel ts ts') := by
  refine ⟨?_, ?_, ?_, ?_⟩
  · intro p
    exact ⟨rfl, rfl⟩
  · intro size txres ts ts' h
    exact List.Forall₂.imp (fun a b hab => ⟨hab.1, hab.2.1, hab.2.2.1⟩)
      (dispatch_forall₂ size txres ts ts' h)
  · intro ts r
    exact List.Forall₂.imp (fun a b hab => ⟨hab.1, hab.2.1, hab.2.2.1⟩) (handle_reply_keep ts r)
  · intro size inp ts ts' evs term h
    exact List.Forall₂.imp (fun a b hab => ⟨hab.1, hab.2.1, hab.2.2.1⟩)
      (run_round_forall₂ size inp ts ts' evs term h)

/-- Witness for C10: a full round on a one-target registry leaves address
and identifier untouched. -/
theorem c10_addr_identifier_frame_witness :
    List.Forall₂ frameRel
      [(IpAddr.v4 1, Ping.mk (IpAddr.v4 1) 3 0 false)]
      [(IpAddr.v4 1, Ping.mk (IpAddr.v4 1) 3 1 false)] :=
  c10_addr_identifier_frame.2.2.2 8 (RoundIn.mk (fun _ => TxResult.ok 0) [] (fun _ => true) true)
    [(IpAddr.v4 1, Ping.mk (IpAddr.v4 1) 3 0 false)]
    [(IpAddr.v4 1, Ping.mk (IpAddr.v4 1) 3 1 false)]
    [PingResult.Idle (IpAddr.v4 1)] true (by decide)
